import Mathlib

/-!
Verification of the PCL ASCII point-cloud reader core.

A shallow embedding of `pcl::ASCIIReader` (src/io/include/pcl/io/ascii_io.h).
The repository ships only the class declaration; the bodies of `readHeader`,
`read`, `parse`, `typeSize` and the tokenizer are modelled from the
specification, as marked on each definition.  `setExtension` has its body in
the header and is embedded from the source.
-/

namespace AsciiCore

/-- Error taxonomy of the reader (spec section 7): every failure mode the
reader can report. -/
inductive AsciiError where
  | fileNotFound
  | fileUnreadable
  | extensionMismatch
  | emptySchema
  | unknownDatatype
  | tokenParseError
  | tokenOverflowError
  | fieldCountMismatch
  | rowCountMismatch
  deriving DecidableEq, Repr

/-- Embedding of `pcl::PCLPointField` as used by the reader: field name,
byte offset within a row, datatype tag, and the number of scalar components. -/
structure PCLPointField where
  name : String
  offset : Nat
  datatype : Int
  count : Nat
  deriving DecidableEq, Repr

/-- Modelled from the spec: `sizeOf(datatype) -> byteWidth`, the body of
`ASCIIReader::typeSize` being absent from the repository.  Pure lookup over
the fixed tag enumeration int8=1, uint8=2, int16=3, uint16=4, int32=5,
uint32=6, float32=7, float64=8; any other tag fails with `UnknownDatatype`. -/
def typeSize (t : Int) : Except AsciiError Nat :=
  if t = 1 ∨ t = 2 then .ok 1
  else if t = 3 ∨ t = 4 then .ok 2
  else if t = 5 ∨ t = 6 ∨ t = 7 then .ok 4
  else if t = 8 then .ok 8
  else .error .unknownDatatype

/-- Byte width of a datatype tag, defaulting to 0 on unknown tags; used to
express row strides as plain naturals. -/
def typeSizeD (t : Int) : Nat :=
  match typeSize t with
  | .ok n => n
  | .error _ => 0

/-- Modelled from the spec: the separator-driven tokenizer of the reader
(its implementation is absent from the repository).  Accumulator-based scan:
`acc` holds the characters of the token currently being built, reversed. -/
def tokenizeAux (seps : List Char) : List Char → List Char → List (List Char)
  | [], acc => if acc = [] then [] else [acc.reverse]
  | c :: rest, acc =>
    if seps.contains c then
      if acc = [] then tokenizeAux seps rest []
      else acc.reverse :: tokenizeAux seps rest []
    else tokenizeAux seps rest (c :: acc)

/-- Modelled from the spec: `tokenize(line, separatorSet)` splits a line at
maximal runs of separator characters, producing no empty tokens. -/
def tokenize (seps : List Char) (line : List Char) : List (List Char) :=
  tokenizeAux seps line []

/-- Numeric value of a list of decimal digit characters. -/
def digitsToNat (ds : List Char) : Nat :=
  ds.foldl (fun acc c => acc * 10 + (c.toNat - '0'.toNat)) 0

/-- Drop one optional leading sign character. -/
def dropSign : List Char → List Char
  | '+' :: r => r
  | '-' :: r => r
  | s => s

/-- Modelled from the spec: recognition and value of a decimal integer
literal (optional sign followed by one or more digits); `none` when the
token text is not such a literal. -/
def parseIntLiteral (s : List Char) : Option Int :=
  match s with
  | [] => none
  | '+' :: ds => if ds ≠ [] ∧ ds.all Char.isDigit then some (digitsToNat ds) else none
  | '-' :: ds => if ds ≠ [] ∧ ds.all Char.isDigit then some (-(digitsToNat ds : Int)) else none
  | ds => if ds.all Char.isDigit then some (digitsToNat ds) else none

/-- Validity of the exponent tail of a floating-point literal: either absent,
or `e`/`E` followed by an optionally signed nonempty digit string. -/
def floatExpOk : List Char → Bool
  | [] => true
  | 'e' :: r => dropSign r ≠ [] && (dropSign r).all Char.isDigit
  | 'E' :: r => dropSign r ≠ [] && (dropSign r).all Char.isDigit
  | _ => false

/-- Modelled from the spec: recognition of a floating-point literal in
standard decimal and exponent notation (optional sign, digits with an
optional fractional part — at least one digit overall — and an optional
exponent). -/
def isFloatLit (s : List Char) : Bool :=
  let s1 := dropSign s
  let d1 := s1.takeWhile Char.isDigit
  let r1 := s1.dropWhile Char.isDigit
  match r1 with
  | '.' :: r2 =>
    let d2 := r2.takeWhile Char.isDigit
    let r3 := r2.dropWhile Char.isDigit
    (d1 ≠ [] || d2 ≠ []) && floatExpOk r3
  | r => d1 ≠ [] && floatExpOk r

/-- Signed decimal value of a floating-point literal, represented exactly as
a pair (mantissa, decimal exponent): the token denotes mantissa × 10^exponent. -/
def floatValue (s : List Char) : Int × Int :=
  let sign : Int := match s with | '-' :: _ => -1 | _ => 1
  let s1 := dropSign s
  let d1 := s1.takeWhile Char.isDigit
  let r1 := s1.dropWhile Char.isDigit
  match r1 with
  | '.' :: r2 =>
    let d2 := r2.takeWhile Char.isDigit
    let r3 := r2.dropWhile Char.isDigit
    let e : Int := match r3 with
      | _ :: re =>
        (match re with | '-' :: _ => -1 | _ => 1) * (digitsToNat (dropSign re) : Int)
      | [] => 0
    (sign * (digitsToNat (d1 ++ d2) : Int), e - (d2.length : Int))
  | r =>
    let e : Int := match r with
      | _ :: re =>
        (match re with | '-' :: _ => -1 | _ => 1) * (digitsToNat (dropSign re) : Int)
      | [] => 0
    (sign * (digitsToNat d1 : Int), e)

/-- Least representable value of an integer datatype tag. -/
def intMin : Int → Int
  | 1 => -128
  | 3 => -32768
  | 5 => -2147483648
  | _ => 0

/-- Greatest representable value of an integer datatype tag. -/
def intMax : Int → Int
  | 1 => 127
  | 2 => 255
  | 3 => 32767
  | 4 => 65535
  | 5 => 2147483647
  | 6 => 4294967295
  | _ => 0

/-- A scalar value produced by the token converter, tagged with the datatype
it was parsed at: integers carry their exact value, floating-point values
their exact decimal reading mantissa × 10^exponent. -/
inductive ScalarValue where
  | intVal (tag : Int) (v : Int)
  | floatVal (tag : Int) (mantissa : Int) (exponent : Int)
  deriving DecidableEq, Repr

/-- Datatype tag a scalar value was parsed at. -/
def ScalarValue.tag : ScalarValue → Int
  | .intVal t _ => t
  | .floatVal t _ _ => t

/-- Byte width a scalar value occupies in the packed row buffer. -/
def scalarBytes (v : ScalarValue) : Nat := typeSizeD v.tag

/-- Modelled from the spec: `ASCIIReader::parse` converts one token at one
scalar component of a field (its implementation is absent from the
repository).  Integer tags demand a decimal integer literal and check the
signed/unsigned representable range, failing with `TokenParseError`
respectively `TokenOverflowError`; float tags demand a decimal or exponent
floating-point literal; a malformed token is never coerced to a default. -/
def parse (token : List Char) (datatype : Int) : Except AsciiError ScalarValue :=
  match typeSize datatype with
  | .error e => .error e
  | .ok _ =>
    if datatype = 7 ∨ datatype = 8 then
      if isFloatLit token then
        .ok (.floatVal datatype (floatValue token).1 (floatValue token).2)
      else .error .tokenParseError
    else
      match parseIntLiteral token with
      | none => .error .tokenParseError
      | some v =>
        if intMin datatype ≤ v ∧ v ≤ intMax datatype then .ok (.intVal datatype v)
        else .error .tokenOverflowError

/-- Whether a conversion result is a success; decidable form used to state
well-formedness of an input file. -/
def exceptOk {α : Type} (r : Except AsciiError α) : Bool :=
  match r with
  | .ok _ => true
  | .error _ => false

/-- Per-scalar datatype tags of a schema in field order: each field
contributes `count` copies of its datatype (multi-component fields consume
one token per component). -/
def scalarTypes (fields : List PCLPointField) : List Int :=
  fields.flatMap (fun f => List.replicate f.count f.datatype)

/-- Total number of scalar tokens one record line must supply. -/
def expectedTokenCount (fields : List PCLPointField) : Nat :=
  (fields.map (fun f => f.count)).sum

/-- Row stride of a schema: sum over fields of byte width × component count;
fails with `UnknownDatatype` when a field carries a tag outside the
enumeration. -/
def schemaStride : List PCLPointField → Except AsciiError Nat
  | [] => .ok 0
  | f :: fs =>
    match typeSize f.datatype, schemaStride fs with
    | .ok s, .ok rest => .ok (s * f.count + rest)
    | .error e, _ => .error e
    | .ok _, .error e => .error e

/-- The configurable state of `pcl::ASCIIReader`: its four data members
(src/io/include/pcl/io/ascii_io.h lines 130-134). -/
structure ReaderState where
  sep_chars_ : String
  extension_ : String
  fields_ : List PCLPointField
  name_ : String
  deriving DecidableEq, Repr

/-- Embedded from the source: `ASCIIReader::setExtension`, whose body
assigns the required-extension member and nothing else. -/
def setExtension (R : ReaderState) (ext : String) : ReaderState :=
  { R with extension_ := ext }

/-- Setter `ASCIIReader::setSepChars`: assigns the separator-character member. -/
def setSepChars (R : ReaderState) (chars : String) : ReaderState :=
  { R with sep_chars_ := chars }

/-- Setter `ASCIIReader::setInputFields`: assigns the ordered field schema. -/
def setInputFields (R : ReaderState) (fields : List PCLPointField) : ReaderState :=
  { R with fields_ := fields }

/-- A file as the reader sees it: a path and, when the path can be opened,
its byte content (ASCII text, one character per byte). -/
structure AsciiFile where
  path : String
  content : Option (List Char)

/-- Whether the path satisfies a configured required extension: vacuous when
no extension is configured, otherwise the path must end in it. -/
def extensionOk (R : ReaderState) (path : String) : Bool :=
  R.extension_.isEmpty || R.extension_.toList.isSuffixOf path.toList

/-- Splits the payload into lines at newline characters, with `getline`
semantics: a trailing newline terminates the last line rather than opening
an empty one, and an empty payload has no lines. -/
def splitLinesAux : List Char → List Char → List (List Char)
  | [], acc => [acc.reverse]
  | ['\n'], acc => [acc.reverse]
  | '\n' :: rest, acc => acc.reverse :: splitLinesAux rest []
  | c :: rest, acc => splitLinesAux rest (c :: acc)

/-- The sequence of lines of a payload. -/
def splitLines : List Char → List (List Char)
  | [] => []
  | c :: rest => splitLinesAux (c :: rest) []

/-- A line is blank when it tokenizes to zero tokens under the active
separator set. -/
def isBlank (seps : List Char) (line : List Char) : Bool :=
  tokenize seps line = ([] : List (List Char))

/-- Number of non-blank lines in a list of lines. -/
def countNonBlank (seps : List Char) (lines : List (List Char)) : Nat :=
  (lines.filter (fun l => !isBlank seps l)).length

/-- Result of a successful header scan: point count (cloud width) and row
stride; height is fixed at 1, origin zero, orientation identity. -/
structure HeaderResult where
  pointCount : Nat
  rowStride : Nat
  deriving DecidableEq, Repr

/-- Modelled from the spec: `ASCIIReader::readHeader` (its implementation is
absent from the repository).  Checks the configured extension, opens the
file, requires a nonempty schema, seeks to `offset`, and counts the lines
that tokenize to a nonzero token count without validating their token count
against the schema. -/
def readHeaderE (R : ReaderState) (file : AsciiFile) (offset : Nat) :
    Except AsciiError HeaderResult :=
  if !extensionOk R file.path then .error .extensionMismatch
  else
    match file.content with
    | none => .error .fileNotFound
    | some cs =>
      if R.fields_ = [] then .error .emptySchema
      else
        match schemaStride R.fields_ with
        | .error e => .error e
        | .ok stride =>
          .ok ⟨countNonBlank R.sep_chars_.toList (splitLines (cs.drop offset)), stride⟩

/-- Modelled from the spec: conversion of one record line's tokens, one
scalar component at a time in schema order; any conversion failure aborts
the row. -/
def parseScalars : List Int → List (List Char) → Except AsciiError (List ScalarValue)
  | [], [] => .ok []
  | [], _ :: _ => .error .fieldCountMismatch
  | _ :: _, [] => .error .fieldCountMismatch
  | t :: ts, tok :: toks =>
    match parse tok t, parseScalars ts toks with
    | .ok v, .ok rest => .ok (v :: rest)
    | .error e, _ => .error e
    | .ok _, .error e => .error e

/-- Modelled from the spec: one record line of the fill pass.  The token
count is validated against the schema's total expected scalar count before
any conversion; a mismatch fails with `FieldCountMismatch`. -/
def parseRow (fields : List PCLPointField) (toks : List (List Char)) :
    Except AsciiError (List ScalarValue) :=
  if toks.length = expectedTokenCount fields then parseScalars (scalarTypes fields) toks
  else .error .fieldCountMismatch

/-- Modelled from the spec: the fill pass over all lines of the payload.
Blank lines are skipped; every other line must parse into one full row, and
the first failure aborts the whole pass. -/
def fillRows (R : ReaderState) : List (List Char) →
    Except AsciiError (List (List ScalarValue))
  | [] => .ok []
  | l :: ls =>
    if isBlank R.sep_chars_.toList l then fillRows R ls
    else
      match parseRow R.fields_ (tokenize R.sep_chars_.toList l), fillRows R ls with
      | .ok row, .ok rest => .ok (row :: rest)
      | .error e, _ => .error e
      | .ok _, .error e => .error e

/-- Result of a successful full read: the cloud geometry together with the
parsed rows in order. -/
structure ReadResult where
  pointCount : Nat
  rowStride : Nat
  rows : List (List ScalarValue)
  deriving DecidableEq, Repr

/-- Total byte count of the packed row data of a read result. -/
def dataBytes (rows : List (List ScalarValue)) : Nat :=
  (rows.map (fun row => (row.map scalarBytes).sum)).sum

/-- Modelled from the spec: `ASCIIReader::read` (its implementation is
absent from the repository).  Runs the header scan, re-seeks to `offset`
and fills rows in a second independent traversal; `fillContent` is the byte
content that second open observes (equal to the first snapshot unless the
file mutated between the two passes).  A disagreement between the fill
pass's row count and the header scan's point count fails with
`RowCountMismatch` rather than truncating or padding. -/
def readE (R : ReaderState) (file : AsciiFile) (fillContent : List Char)
    (offset : Nat) : Except AsciiError ReadResult :=
  match readHeaderE R file offset with
  | .error e => .error e
  | .ok h =>
    match fillRows R (splitLines (fillContent.drop offset)) with
    | .error e => .error e
    | .ok rows =>
      if rows.length = h.pointCount then .ok ⟨h.pointCount, h.rowStride, rows⟩
      else .error .rowCountMismatch

/-- The full read in the ordinary case where the file does not change
between the header pass and the fill pass. -/
def readFull (R : ReaderState) (path : String) (cs : List Char) (offset : Nat) :
    Except AsciiError ReadResult :=
  readE R ⟨path, some cs⟩ cs offset

/-- The `int` status the reader returns to the framework: −1 on any
failure, 1 on success (src header: "< 0 (-1) on error, > 0 on success"),
paired with the produced header data. -/
def readHeaderRun (R : ReaderState) (file : AsciiFile) (offset : Nat) :
    Int × Option HeaderResult :=
  match readHeaderE R file offset with
  | .error _ => (-1, none)
  | .ok h => (1, some h)

/-- The `int` status of the full read, paired with the produced cloud data;
on failure no row data is exposed. -/
def readRun (R : ReaderState) (file : AsciiFile) (fillContent : List Char)
    (offset : Nat) : Int × Option ReadResult :=
  match readE R file fillContent offset with
  | .error _ => (-1, none)
  | .ok r => (1, some r)

end AsciiCore

deriving instance DecidableEq for Except

namespace AsciiCore

theorem tokenizeAux_nil (seps acc : List Char) :
    tokenizeAux seps [] acc = if acc = [] then [] else [acc.reverse] := rfl

theorem tokenizeAux_sep (seps : List Char) (s : Char) (hs : seps.contains s)
    (l acc : List Char) :
    tokenizeAux seps (s :: l) acc =
      (if acc = [] then [] else [acc.reverse]) ++ tokenizeAux seps l [] := by
  rw [tokenizeAux, if_pos hs]
  by_cases h : acc = []
  · rw [if_pos h, if_pos h, List.nil_append]
  · rw [if_neg h, if_neg h, List.singleton_append]

theorem tokenizeAux_nonsep (seps : List Char) (c : Char) (hc : ¬ seps.contains c)
    (l acc : List Char) :
    tokenizeAux seps (c :: l) acc = tokenizeAux seps l (c :: acc) := by
  rw [tokenizeAux, if_neg hc]

theorem mem_tokenizeAux_ne_nil (seps : List Char) :
    ∀ (line acc : List Char), ∀ t ∈ tokenizeAux seps line acc, t ≠ [] := by
  intro line
  induction line with
  | nil =>
    intro acc t ht
    rw [tokenizeAux_nil] at ht
    by_cases h : acc = [] <;> simp [h] at ht
    subst ht
    simpa using h
  | cons c rest ih =>
    intro acc t ht
    by_cases hc : seps.contains c
    · rw [tokenizeAux_sep seps c hc] at ht
      rcases List.mem_append.mp ht with h1 | h1
      · by_cases h : acc = [] <;> simp [h] at h1
        subst h1
        simpa using h
      · exact ih [] t h1
    · rw [tokenizeAux_nonsep seps c hc] at ht
      exact ih (c :: acc) t ht

theorem tokenizeAux_sep_dup (seps : List Char) (s : Char) (hs : seps.contains s)
    (l2 : List Char) :
    ∀ (l1 acc : List Char),
      tokenizeAux seps (l1 ++ s :: s :: l2) acc = tokenizeAux seps (l1 ++ s :: l2) acc := by
  intro l1
  induction l1 with
  | nil =>
    intro acc
    simp [tokenizeAux_sep seps s hs]
  | cons c rest ih =>
    intro acc
    by_cases hc : seps.contains c
    · simp [tokenizeAux_sep seps c hc, ih]
    · simp [tokenizeAux_nonsep seps c hc, ih]

theorem tokenizeAux_sep_trailing (seps : List Char) (s : Char) (hs : seps.contains s) :
    ∀ (l acc : List Char), tokenizeAux seps (l ++ [s]) acc = tokenizeAux seps l acc := by
  intro l
  induction l with
  | nil =>
    intro acc
    simp [tokenizeAux_sep seps s hs, tokenizeAux_nil]
  | cons c rest ih =>
    intro acc
    by_cases hc : seps.contains c
    · simp [tokenizeAux_sep seps c hc, ih]
    · simp [tokenizeAux_nonsep seps c hc, ih]

theorem tokenize_all_sep (seps : List Char) :
    ∀ (l : List Char), (∀ c ∈ l, seps.contains c) → tokenize seps l = [] := by
  intro l
  induction l with
  | nil => intro _; rfl
  | cons c rest ih =>
    intro h
    have hc : seps.contains c = true := h c (List.mem_cons_self c rest)
    rw [tokenize, tokenizeAux_sep seps c hc]
    simpa using ih (fun d hd => h d (List.mem_cons_of_mem c hd))

/-- C5: the tokenizer produces no empty tokens; a maximal run of separators
acts as a single boundary (a duplicated separator changes nothing); leading
and trailing separators produce no tokens; and a line consisting only of
separator characters yields zero tokens and is treated as blank. -/
theorem tokenize_spec (seps : List Char) (line l1 l2 : List Char) (s : Char)
    (hs : seps.contains s) :
    (∀ t ∈ tokenize seps line, t ≠ []) ∧
    tokenize seps (l1 ++ s :: s :: l2) = tokenize seps (l1 ++ s :: l2) ∧
    tokenize seps (s :: line) = tokenize seps line ∧
    tokenize seps (line ++ [s]) = tokenize seps line ∧
    ((∀ c ∈ line, seps.contains c) → isBlank seps line = true) := by
  refine ⟨mem_tokenizeAux_ne_nil seps line [], ?_, ?_, ?_, ?_⟩
  · exact tokenizeAux_sep_dup seps s hs l2 l1 []
  · show tokenizeAux seps (s :: line) [] = tokenizeAux seps line []
    simp [tokenizeAux_sep seps s hs]
  · exact tokenizeAux_sep_trailing seps s hs line []
  · intro h
    rw [isBlank, tokenize_all_sep seps line h]
    rfl

/-- C5 witness at concrete inputs: a line of only separator characters
tokenizes to zero tokens, and a duplicated comma changes nothing. -/
theorem tokenize_spec_witness :
    isBlank [',', ' '] ",, ,".toList = true ∧
    tokenize [',', ' '] "1,,2".toList = tokenize [',', ' '] "1,2".toList := by
  have h1 := tokenize_spec [',', ' '] ",, ,".toList ['1'] ['2'] ',' (by decide)
  exact ⟨h1.2.2.2.2 (by decide), h1.2.1⟩

end AsciiCore

namespace AsciiCore

/-- C6: the type-size lookup is total over the fixed datatype enumeration
tags 1..8, returning a strictly positive byte width there, and fails with
`UnknownDatatype` on every tag outside that set. -/
theorem typeSize_total (t : Int) :
    ((t = 1 ∨ t = 2 ∨ t = 3 ∨ t = 4 ∨ t = 5 ∨ t = 6 ∨ t = 7 ∨ t = 8) →
      ∃ n, typeSize t = .ok n ∧ 0 < n) ∧
    (¬(t = 1 ∨ t = 2 ∨ t = 3 ∨ t = 4 ∨ t = 5 ∨ t = 6 ∨ t = 7 ∨ t = 8) →
      typeSize t = .error .unknownDatatype) := by
  constructor
  · rintro (rfl | rfl | rfl | rfl | rfl | rfl | rfl | rfl) <;>
      first
      | exact ⟨1, by decide, by decide⟩
      | exact ⟨2, by decide, by decide⟩
      | exact ⟨4, by decide, by decide⟩
      | exact ⟨8, by decide, by decide⟩
  · intro h
    push_neg at h
    obtain ⟨h1, h2, h3, h4, h5, h6, h7, h8⟩ := h
    rw [typeSize]
    rw [if_neg (by tauto), if_neg (by tauto), if_neg (by tauto), if_neg h8]

/-- C6 witness: the lookup at tag 5 (int32) yields a positive width and at
tag 0 fails with `UnknownDatatype`. -/
theorem typeSize_total_witness :
    (∃ n, typeSize 5 = .ok n ∧ 0 < n) ∧ typeSize 0 = .error .unknownDatatype :=
  ⟨(typeSize_total 5).1 (by decide), (typeSize_total 0).2 (by decide)⟩

/-- C10: `setExtension` assigns the required-extension member and leaves the
separator characters, the configured input fields and the reader name
unchanged, for every prior reader state and every argument. -/
theorem setExtension_frame (R : ReaderState) (ext : String) :
    (setExtension R ext).extension_ = ext ∧
    (setExtension R ext).sep_chars_ = R.sep_chars_ ∧
    (setExtension R ext).fields_ = R.fields_ ∧
    (setExtension R ext).name_ = R.name_ :=
  ⟨rfl, rfl, rfl, rfl⟩

end AsciiCore

namespace AsciiCore

/-- C4: against an integer field, a token that is not a decimal integer
literal fails with `TokenParseError` and an integer literal outside the
datatype's representable range fails with `TokenOverflowError`; any
successful integer conversion carries exactly the literal's in-range value,
so a malformed token is never silently coerced; against a float field, a
token that is not a floating-point literal fails with `TokenParseError`. -/
theorem parse_errors (tok : List Char) (d : Int) :
    ((d = 1 ∨ d = 2 ∨ d = 3 ∨ d = 4 ∨ d = 5 ∨ d = 6) →
      (parseIntLiteral tok = none → parse tok d = .error .tokenParseError) ∧
      (∀ v, parseIntLiteral tok = some v → ¬(intMin d ≤ v ∧ v ≤ intMax d) →
        parse tok d = .error .tokenOverflowError) ∧
      (∀ s, parse tok d = .ok s →
        ∃ v, s = .intVal d v ∧ parseIntLiteral tok = some v ∧
          intMin d ≤ v ∧ v ≤ intMax d)) ∧
    ((d = 7 ∨ d = 8) → isFloatLit tok = false → parse tok d = .error .tokenParseError) := by
  constructor
  · intro hd
    have h78 : ¬(d = 7 ∨ d = 8) := by
      rcases hd with rfl | rfl | rfl | rfl | rfl | rfl <;> decide
    obtain ⟨n, hn⟩ : ∃ n, typeSize d = .ok n := by
      rcases hd with rfl | rfl | rfl | rfl | rfl | rfl <;>
        first
        | exact ⟨1, by decide⟩
        | exact ⟨2, by decide⟩
        | exact ⟨4, by decide⟩
    refine ⟨?_, ?_, ?_⟩
    · intro h
      simp [parse, hn, h78, h]
    · intro v hv hr
      simp [parse, hn, h78, hv, hr]
    · intro s hs
      cases hp : parseIntLiteral tok with
      | none => simp [parse, hn, h78, hp] at hs
      | some v =>
        by_cases hr : intMin d ≤ v ∧ v ≤ intMax d
        · refine ⟨v, ?_, rfl, hr.1, hr.2⟩
          simp [parse, hn, h78, hp, hr] at hs
          exact hs.symm
        · simp [parse, hn, h78, hp, hr] at hs
  · rintro (rfl | rfl) <;>
    · intro h
      simp [parse, typeSize, h]

/-- C9: the status the reader hands back to the framework is a negative
integer exactly when the call fails and non-negative exactly when the call
succeeds, for both the header scan and the full read. -/
theorem status_convention (R : ReaderState) (file : AsciiFile)
    (fillContent : List Char) (offset : Nat) :
    ((readHeaderRun R file offset).1 < 0 ↔ ∃ e, readHeaderE R file offset = .error e) ∧
    (0 ≤ (readHeaderRun R file offset).1 ↔ ∃ h, readHeaderE R file offset = .ok h) ∧
    ((readRun R file fillContent offset).1 < 0 ↔
      ∃ e, readE R file fillContent offset = .error e) ∧
    (0 ≤ (readRun R file fillContent offset).1 ↔
      ∃ r, readE R file fillContent offset = .ok r) := by
  refine ⟨?_, ?_, ?_, ?_⟩
  · cases h : readHeaderE R file offset <;> simp [readHeaderRun, h]
  · cases h : readHeaderE R file offset <;> simp [readHeaderRun, h]
  · cases h : readE R file fillContent offset <;> simp [readRun, h]
  · cases h : readE R file fillContent offset <;> simp [readRun, h]

end AsciiCore

namespace AsciiCore

/-- C4 witness (spec scenario D): token "abc" against an int32 field fails
with `TokenParseError`, and token "99999999999" against an int16 field
fails with `TokenOverflowError`. -/
theorem parse_errors_witness :
    parse "abc".toList 5 = .error .tokenParseError ∧
    parse "99999999999".toList 3 = .error .tokenOverflowError := by
  have h5 := (parse_errors "abc".toList 5).1 (by decide)
  have h3 := (parse_errors "99999999999".toList 3).1 (by decide)
  exact ⟨h5.1 (by decide), h3.2.1 99999999999 (by decide) (by decide)⟩

end AsciiCore

namespace AsciiCore

/-- C3: on any openable file with a matching extension and a nonempty valid
schema, the header scan reports a point count equal to the number of lines
that tokenize to a nonzero token count — blank lines do not increment the
count — and, holding for every file content, it never validates a line's
token count against the schema. -/
theorem readHeader_counts (R : ReaderState) (path : String) (cs : List Char)
    (offset : Nat) (stride : Nat)
    (hext : extensionOk R path = true)
    (hf : R.fields_ ≠ [])
    (hs : schemaStride R.fields_ = .ok stride) :
    readHeaderE R ⟨path, some cs⟩ offset =
      .ok ⟨countNonBlank R.sep_chars_.toList (splitLines (cs.drop offset)), stride⟩ := by
  simp [readHeaderE, hext, hf, hs]

/-- C3 witness: a file whose first line has two tokens against a one-field
schema and whose second line is blank scans to a point count of 2 (the
non-blank lines, with no schema validation). -/
theorem readHeader_counts_witness :
    readHeaderE ⟨" \n\t,", "", [⟨"x", 0, 5, 1⟩], "AsciiReader"⟩
      ⟨"cloud.txt", some "1 2\n\n3\n".toList⟩ 0 = .ok ⟨2, 4⟩ := by
  have h := readHeader_counts ⟨" \n\t,", "", [⟨"x", 0, 5, 1⟩], "AsciiReader"⟩
    "cloud.txt" "1 2\n\n3\n".toList 0 4 (by decide) (by decide) (by decide)
  rw [h]
  decide

/-- C8: running the header scan or the full read at offset k on a file of k
arbitrary prefix bytes followed by payload P produces the same result as
running it at offset 0 on P alone. -/
theorem offset_independence (R : ReaderState) (path : String)
    (pre P : List Char) (k : Nat) (hk : pre.length = k) :
    readHeaderE R ⟨path, some (pre ++ P)⟩ k = readHeaderE R ⟨path, some P⟩ 0 ∧
    readHeaderRun R ⟨path, some (pre ++ P)⟩ k = readHeaderRun R ⟨path, some P⟩ 0 ∧
    readFull R path (pre ++ P) k = readFull R path P 0 ∧
    readRun R ⟨path, some (pre ++ P)⟩ (pre ++ P) k = readRun R ⟨path, some P⟩ P 0 := by
  subst hk
  have hdrop : (pre ++ P).drop pre.length = P := List.drop_left pre P
  have h1 : readHeaderE R ⟨path, some (pre ++ P)⟩ pre.length =
      readHeaderE R ⟨path, some P⟩ 0 := by
    rw [readHeaderE, readHeaderE]
    simp [hdrop]
  have h2 : readE R ⟨path, some (pre ++ P)⟩ (pre ++ P) pre.length =
      readE R ⟨path, some P⟩ P 0 := by
    rw [readE, readE, h1]
    simp [hdrop]
  refine ⟨h1, ?_, ?_, ?_⟩
  · rw [readHeaderRun, readHeaderRun, h1]
  · rw [readFull, readFull]
    exact h2
  · rw [readRun, readRun, h2]

/-- C8 witness: a one-byte prefix skipped via offset 1 leaves the full read
of the payload "7\n" unchanged. -/
theorem offset_independence_witness :
    readFull ⟨",", "", [⟨"x", 0, 5, 1⟩], "AsciiReader"⟩ "a.txt" ('X' :: "7\n".toList) 1 =
      readFull ⟨",", "", [⟨"x", 0, 5, 1⟩], "AsciiReader"⟩ "a.txt" "7\n".toList 0 :=
  (offset_independence ⟨",", "", [⟨"x", 0, 5, 1⟩], "AsciiReader"⟩ "a.txt"
    ['X'] "7\n".toList 1 (by decide)).2.2.1

/-- C7: when the fill pass parses a number of rows different from the header
scan's point count (the file mutated between the two independent passes),
the full read fails with `RowCountMismatch` rather than silently truncating
or padding the output. -/
theorem row_count_mismatch (R : ReaderState) (file : AsciiFile)
    (fillContent : List Char) (offset : Nat) (h : HeaderResult)
    (rows : List (List ScalarValue))
    (hh : readHeaderE R file offset = .ok h)
    (hf : fillRows R (splitLines (fillContent.drop offset)) = .ok rows)
    (hne : rows.length ≠ h.pointCount) :
    readE R file fillContent offset = .error .rowCountMismatch := by
  simp [readE, hh, hf, hne]

/-- C7 witness: a file that scans to one point but is empty by the time of
the fill pass makes the full read fail with `RowCountMismatch`. -/
theorem row_count_mismatch_witness :
    readE ⟨" \n\t,", "", [⟨"x", 0, 5, 1⟩], "AsciiReader"⟩
      ⟨"a.txt", some "1\n".toList⟩ [] 0 = .error .rowCountMismatch :=
  row_count_mismatch ⟨" \n\t,", "", [⟨"x", 0, 5, 1⟩], "AsciiReader"⟩
    ⟨"a.txt", some "1\n".toList⟩ [] 0 ⟨1, 4⟩ [] (by decide) (by decide) (by decide)

end AsciiCore

namespace AsciiCore

theorem fillRows_error_of_mem (R : ReaderState) :
    ∀ (lines : List (List Char)) (l : List Char), l ∈ lines →
      isBlank R.sep_chars_.toList l = false →
      (∃ e0, parseRow R.fields_ (tokenize R.sep_chars_.toList l) = .error e0) →
      ∃ e, fillRows R lines = .error e := by
  intro lines
  induction lines with
  | nil =>
    intro l hl
    simp at hl
  | cons hd tl ih =>
    intro l hl hnb he
    rcases List.mem_cons.mp hl with rfl | hmem
    · obtain ⟨e0, he0⟩ := he
      have hnb2 : isBlank R.sep_chars_.data l = false := hnb
      have he02 : parseRow R.fields_ (tokenize R.sep_chars_.data l) = .error e0 := he0
      cases hrest : fillRows R tl with
      | ok rows => exact ⟨e0, by simp [fillRows, hnb2, he02, hrest]⟩
      | error e1 => exact ⟨e0, by simp [fillRows, hnb2, he02, hrest]⟩
    · obtain ⟨e, hee⟩ := ih l hmem hnb he
      by_cases hb : isBlank R.sep_chars_.toList hd
      · have hb2 : isBlank R.sep_chars_.data hd = true := hb
        exact ⟨e, by simp [fillRows, hb2, hee]⟩
      · have hb2 : isBlank R.sep_chars_.data hd = false := by
          rw [Bool.eq_false_iff]
          exact hb
        cases hph : parseRow R.fields_ (tokenize R.sep_chars_.toList hd) with
        | ok row =>
          have hph2 : parseRow R.fields_ (tokenize R.sep_chars_.data hd) = .ok row := hph
          exact ⟨e, by simp [fillRows, hb2, hph2, hee]⟩
        | error e1 =>
          have hph2 : parseRow R.fields_ (tokenize R.sep_chars_.data hd) = .error e1 := hph
          exact ⟨e1, by simp [fillRows, hb2, hph2, hee]⟩

/-- C2: a non-blank line whose token count differs from the schema's total
expected scalar token count makes the full read return a negative status
with no row data in the output. -/
theorem bad_token_count_fails (R : ReaderState) (path : String) (cs : List Char)
    (offset : Nat) (l : List Char)
    (hl : l ∈ splitLines (cs.drop offset))
    (hnb : isBlank R.sep_chars_.toList l = false)
    (hcount : (tokenize R.sep_chars_.toList l).length ≠ expectedTokenCount R.fields_) :
    (readRun R ⟨path, some cs⟩ cs offset).1 < 0 ∧
    (readRun R ⟨path, some cs⟩ cs offset).2 = none := by
  have hpr : parseRow R.fields_ (tokenize R.sep_chars_.toList l) =
      .error .fieldCountMismatch := by
    rw [parseRow, if_neg hcount]
  obtain ⟨e, he⟩ :=
    fillRows_error_of_mem R (splitLines (cs.drop offset)) l hl hnb ⟨_, hpr⟩
  cases hh : readHeaderE R ⟨path, some cs⟩ offset with
  | error e2 => simp [readRun, readE, hh]
  | ok h => simp [readRun, readE, hh, he]

/-- C2 witness (spec scenario B): the file "1,2\n" against a three-field
float32 schema returns a negative status and no output rows. -/
theorem bad_token_count_fails_witness :
    (readRun ⟨",", "", [⟨"x", 0, 7, 1⟩, ⟨"y", 4, 7, 1⟩, ⟨"z", 8, 7, 1⟩], "AsciiReader"⟩
        ⟨"a.txt", some "1,2\n".toList⟩ "1,2\n".toList 0).1 < 0 ∧
    (readRun ⟨",", "", [⟨"x", 0, 7, 1⟩, ⟨"y", 4, 7, 1⟩, ⟨"z", 8, 7, 1⟩], "AsciiReader"⟩
        ⟨"a.txt", some "1,2\n".toList⟩ "1,2\n".toList 0).2 = none :=
  bad_token_count_fails ⟨",", "", [⟨"x", 0, 7, 1⟩, ⟨"y", 4, 7, 1⟩, ⟨"z", 8, 7, 1⟩],
    "AsciiReader"⟩ "a.txt" "1,2\n".toList 0 "1,2".toList
    (by decide) (by decide) (by decide)

end AsciiCore

namespace AsciiCore

theorem parse_ok_tag (tok : List Char) (t : Int) (v : ScalarValue)
    (h : parse tok t = .ok v) : v.tag = t := by
  cases hts : typeSize t with
  | error e => simp [parse, hts] at h
  | ok n =>
    by_cases h78 : t = 7 ∨ t = 8
    · by_cases hf : isFloatLit tok
      · simp [parse, hts, h78, hf] at h
        rw [← h]
        rfl
      · simp [parse, hts, h78, hf] at h
    · cases hp : parseIntLiteral tok with
      | none => simp [parse, hts, h78, hp] at h
      | some w =>
        by_cases hr : intMin t ≤ w ∧ w ≤ intMax t
        · simp [parse, hts, h78, hp, hr] at h
          rw [← h]
          rfl
        · simp [parse, hts, h78, hp, hr] at h

theorem scalarTypes_length (fields : List PCLPointField) :
    (scalarTypes fields).length = expectedTokenCount fields := by
  induction fields with
  | nil => rfl
  | cons f fs ih =>
    simp [scalarTypes, expectedTokenCount] at *
    omega

theorem scalarTypes_cons (f : PCLPointField) (fs : List PCLPointField) :
    scalarTypes (f :: fs) = List.replicate f.count f.datatype ++ scalarTypes fs := by
  simp [scalarTypes]

theorem scalarTypes_stride (fields : List PCLPointField) :
    ∀ stride : Nat, schemaStride fields = .ok stride →
      ((scalarTypes fields).map typeSizeD).sum = stride := by
  induction fields with
  | nil =>
    intro stride hs
    rw [schemaStride] at hs
    cases hs
    rfl
  | cons f fs ih =>
    intro stride hs
    rw [schemaStride] at hs
    cases hts : typeSize f.datatype with
    | error e => rw [hts] at hs; cases hs
    | ok s =>
      rw [hts] at hs
      cases hrest : schemaStride fs with
      | error e => rw [hrest] at hs; cases hs
      | ok rest =>
        rw [hrest] at hs
        cases hs
        have hih := ih rest hrest
        rw [scalarTypes_cons, List.map_append, List.sum_append, hih, List.map_replicate]
        simp [List.sum_replicate, typeSizeD, hts]
        ring

theorem parseScalars_ok :
    ∀ (ts : List Int) (toks : List (List Char)),
      ts.length = toks.length →
      (∀ p ∈ ts.zip toks, exceptOk (parse p.2 p.1) = true) →
      ∃ vs, parseScalars ts toks = .ok vs ∧ vs.map ScalarValue.tag = ts := by
  intro ts
  induction ts with
  | nil =>
    intro toks hlen hp
    cases toks with
    | nil => exact ⟨[], rfl, rfl⟩
    | cons a b => simp at hlen
  | cons t ts' ih =>
    intro toks hlen hp
    cases toks with
    | nil => simp at hlen
    | cons tok toks' =>
      have hpt : exceptOk (parse tok t) = true := hp (t, tok) (by simp)
      obtain ⟨v, hv⟩ : ∃ v, parse tok t = .ok v := by
        cases hpe : parse tok t with
        | ok v => exact ⟨v, rfl⟩
        | error e => simp [exceptOk, hpe] at hpt
      obtain ⟨vs, hvs, htags⟩ := ih toks' (by simpa using hlen)
        (fun p hp2 => hp p (List.mem_cons_of_mem _ hp2))
      refine ⟨v :: vs, ?_, ?_⟩
      · simp [parseScalars, hv, hvs]
      · simp [htags, parse_ok_tag tok t v hv]

theorem fillRows_ok (R : ReaderState) :
    ∀ lines : List (List Char),
      (∀ l ∈ lines, isBlank R.sep_chars_.toList l = false →
        (tokenize R.sep_chars_.toList l).length = expectedTokenCount R.fields_ ∧
        ∀ p ∈ (scalarTypes R.fields_).zip (tokenize R.sep_chars_.toList l),
          exceptOk (parse p.2 p.1) = true) →
      ∃ rows, fillRows R lines = .ok rows ∧
        rows.length = countNonBlank R.sep_chars_.toList lines ∧
        ∀ row ∈ rows, row.map ScalarValue.tag = scalarTypes R.fields_ := by
  intro lines
  induction lines with
  | nil =>
    intro _
    exact ⟨[], rfl, rfl, by simp⟩
  | cons l ls ih =>
    intro h
    obtain ⟨rows, hrows, hlen, htags⟩ := ih (fun x hx => h x (List.mem_cons_of_mem _ hx))
    by_cases hb : isBlank R.sep_chars_.toList l
    · have hb2 : isBlank R.sep_chars_.data l = true := hb
      refine ⟨rows, by simp [fillRows, hb2, hrows], ?_, htags⟩
      rw [hlen]
      simp [countNonBlank, hb2]
    · have hb2 : isBlank R.sep_chars_.data l = false := by
        rw [Bool.eq_false_iff]
        exact hb
      obtain ⟨hcount, hparse⟩ := h l (List.mem_cons_self _ _) (by simpa using hb)
      have hziplen : (scalarTypes R.fields_).length = (tokenize R.sep_chars_.toList l).length := by
        rw [scalarTypes_length, hcount]
      obtain ⟨vs, hvs, htag⟩ :=
        parseScalars_ok (scalarTypes R.fields_) (tokenize R.sep_chars_.toList l) hziplen hparse
      have hpr : parseRow R.fields_ (tokenize R.sep_chars_.data l) = .ok vs := by
        show parseRow R.fields_ (tokenize R.sep_chars_.toList l) = .ok vs
        rw [parseRow, if_pos hcount, hvs]
      refine ⟨vs :: rows, by simp [fillRows, hb2, hpr, hrows], ?_, ?_⟩
      · rw [List.length_cons, hlen]
        simp [countNonBlank, hb2]
      · intro row hr
        rcases List.mem_cons.mp hr with rfl | hr2
        · exact htag
        · exact htags row hr2

end AsciiCore

namespace AsciiCore

/-- C1: on a well-formed file — the extension matches, the schema is
nonempty with known datatypes, every non-blank line tokenizes to exactly
the schema's expected scalar token count, and every token converts
successfully at its field's datatype — the full read succeeds, the point
count equals the number of non-blank lines, and the output holds exactly
pointCount × rowStride bytes of packed row data. -/
theorem wellformed_read_succeeds (R : ReaderState) (path : String) (cs : List Char)
    (offset stride : Nat)
    (hext : extensionOk R path = true)
    (hf : R.fields_ ≠ [])
    (hs : schemaStride R.fields_ = .ok stride)
    (hlines : ∀ l ∈ splitLines (cs.drop offset),
      isBlank R.sep_chars_.toList l = false →
      (tokenize R.sep_chars_.toList l).length = expectedTokenCount R.fields_ ∧
      ∀ p ∈ (scalarTypes R.fields_).zip (tokenize R.sep_chars_.toList l),
        exceptOk (parse p.2 p.1) = true) :
    ∃ rows,
      readFull R path cs offset =
        .ok ⟨countNonBlank R.sep_chars_.toList (splitLines (cs.drop offset)), stride, rows⟩ ∧
      rows.length = countNonBlank R.sep_chars_.toList (splitLines (cs.drop offset)) ∧
      dataBytes rows =
        countNonBlank R.sep_chars_.toList (splitLines (cs.drop offset)) * stride := by
  have hh : readHeaderE R ⟨path, some cs⟩ offset =
      .ok ⟨countNonBlank R.sep_chars_.toList (splitLines (cs.drop offset)), stride⟩ := by
    simp [readHeaderE, hext, hf, hs]
  obtain ⟨rows, hfill, hlen, htags⟩ := fillRows_ok R (splitLines (cs.drop offset)) hlines
  have hrowbytes : ∀ row ∈ rows, (row.map scalarBytes).sum = stride := by
    intro row hr
    have h1 : row.map ScalarValue.tag = scalarTypes R.fields_ := htags row hr
    have h2 : row.map scalarBytes = (row.map ScalarValue.tag).map typeSizeD := by
      rw [List.map_map]
      rfl
    rw [h2, h1]
    exact scalarTypes_stride R.fields_ stride hs
  refine ⟨rows, ?_, hlen, ?_⟩
  · simp [readFull, readE, hh, hfill, hlen]
  · rw [dataBytes]
    have hrep : rows.map (fun row => (row.map scalarBytes).sum) =
        List.replicate rows.length stride := by
      rw [List.eq_replicate_iff]
      exact ⟨by simp, fun b hb => by
        obtain ⟨row, hrow, rfl⟩ := List.mem_map.mp hb
        exact hrowbytes row hrow⟩
    rw [hrep, List.sum_replicate, smul_eq_mul, hlen]

/-- C1 witness (spec scenario A with an int32 schema): the file
"1,2,3\n4,5,6\n7,8,9\n" under separator "," and a three-field int32 schema
reads fully into 3 rows and 36 = 3 × 12 bytes of row data. -/
theorem wellformed_read_succeeds_witness :
    ∃ rows,
      readFull ⟨",", "", [⟨"x", 0, 5, 1⟩, ⟨"y", 4, 5, 1⟩, ⟨"z", 8, 5, 1⟩], "AsciiReader"⟩
        "a.txt" "1,2,3\n4,5,6\n7,8,9\n".toList 0 = .ok ⟨3, 12, rows⟩ ∧
      rows.length = 3 ∧ dataBytes rows = 36 := by
  obtain ⟨rows, h1, h2, h3⟩ :=
    wellformed_read_succeeds
      ⟨",", "", [⟨"x", 0, 5, 1⟩, ⟨"y", 4, 5, 1⟩, ⟨"z", 8, 5, 1⟩], "AsciiReader"⟩
      "a.txt" "1,2,3\n4,5,6\n7,8,9\n".toList 0 12
      (by decide) (by decide) (by decide) (by decide)
  have hN : countNonBlank
      (ReaderState.sep_chars_ ⟨",", "", [⟨"x", 0, 5, 1⟩, ⟨"y", 4, 5, 1⟩, ⟨"z", 8, 5, 1⟩],
        "AsciiReader"⟩).toList
      (splitLines ("1,2,3\n4,5,6\n7,8,9\n".toList.drop 0)) = 3 := by decide
  rw [hN] at h1 h2 h3
  exact ⟨rows, h1, h2, by omega⟩

end AsciiCore
